import Mathlib

/-!
Verification of the deployment/project removal resolution and confirmation
workflow of the `remove` CLI command
(`src/packages/cli/src/commands/remove.ts`).

The command's `main` function is shallowly embedded as a pure function over
an explicit environment of external collaborators (identifier validator,
deployment lookup, project lookup, paginated deployments-by-project, alias
lookup), together with a trace of the API calls it issues and the output
events it emits.  Lookup failures, which the source captures as values
(`getDeployment(...).catch(err => err)`, and `getProjectByIdOrName`
returning a not-found error object), are embedded as the `err` constructor
of `LookupResult`.
-/

namespace Remove

/-- An alias record: a hostname bound to a deployment (the `alias` string
field of the source's `Alias` type; only the hostname is relevant here). -/
structure Alias where
  aliasHost : String
deriving DecidableEq

/-- A deployment record.  The source type `DeploymentWithAliases =
Deployment & { aliases: Alias[] }` carries an `aliases` field that is
assigned before any kept deployment reaches the final set (safe-mode
expansion writes `depl.aliases = []`, and the final filter writes
`match.aliases = aliases[i]`), so we carry the field throughout. -/
structure DeploymentWithAliases where
  id : String
  name : String
  url : String
  createdAt : Nat
  aliases : List Alias
deriving DecidableEq

/-- A project record (`id` and `name` are the fields the command reads). -/
structure Project where
  id : String
  name : String
deriving DecidableEq

/-- Outcome of a single lookup, with failures captured as values:
`err` stands both for a caught rejection (`.catch(err => err)`) and for a
`NowError`-valued result such as project not-found.  In the source the
search filter rejects every such value (`instanceof NowError`, or an error
object without matching `id`/`name`/`url` fields). -/
inductive LookupResult (α : Type) where
  | ok (a : α)
  | err
deriving DecidableEq

/-- Extract the successful value of a lookup, if any. -/
def okValue? : LookupResult α → Option α
  | .ok a => some a
  | .err => none

/-- The environment of external collaborators consumed by `main`
(spec section 6): scope resolution result, `isValidName`, `normalizeURL`,
`getDeployment`, `getProjectByIdOrName`, `getDeploymentsByProjectId`
(keyed by project id and the `max` page parameter), and `getAliases`. -/
structure Env where
  contextName : String
  isValidName : String → Bool
  normalizeURL : String → String
  deploymentLookup : String → LookupResult DeploymentWithAliases
  projectLookup : String → LookupResult Project
  deploymentsByProjectId : String → Nat → List DeploymentWithAliases
  aliasesOf : String → List Alias

/-- The command-line flags of `remove` that drive the workflow:
`--hard`, `--yes` (skip confirmation), `--safe`, `--help`. -/
structure Flags where
  hard : Bool
  yes : Bool
  safe : Bool
  help : Bool
deriving DecidableEq

/-- `searchFilter` (remove.ts line 137) applied to a deployment-lookup
result: an error value never matches (`d instanceof NowError`, or missing
fields); a deployment matches when some requested identifier equals its
id, its name, or its URL after `normalizeURL`. -/
def keepDeployment (env : Env) (ids : List String) : LookupResult DeploymentWithAliases → Bool
  | .err => false
  | .ok d => ids.any fun i => d.id == i || d.name == i || d.url == env.normalizeURL i

/-- `searchFilter` applied to a project-lookup result: projects carry no
`url` field, so the URL clause of the source's filter is always false
(`undefined === normalizeURL(id)`); only id and name can match. -/
def keepProject (ids : List String) : LookupResult Project → Bool
  | .err => false
  | .ok p => ids.any fun i => p.id == i || p.name == i

/-- The matched-deployment set, generalized to fetch lookups for
`fetchIds` while filtering against `filterIds` (in `main` both are the
full identifier list).  The trailing `filterMap okValue?` only changes the
type: every error value was already rejected by the filter. -/
def matchedDeploymentsFrom (env : Env) (fetchIds filterIds : List String) : List DeploymentWithAliases :=
  ((fetchIds.map env.deploymentLookup).filter (keepDeployment env filterIds)).filterMap okValue?

/-- `deployments = deploymentList.filter(searchFilter)` (line 159): one
lookup per identifier, filtered against the full identifier list. -/
def matchedDeployments (env : Env) (ids : List String) : List DeploymentWithAliases :=
  matchedDeploymentsFrom env ids ids

/-- The matched-project set, generalized like `matchedDeploymentsFrom`. -/
def matchedProjectsFrom (env : Env) (fetchIds filterIds : List String) : List Project :=
  ((fetchIds.map env.projectLookup).filter (keepProject filterIds)).filterMap okValue?

/-- `projects = projectList.filter(searchFilter)` (line 161). -/
def matchedProjects (env : Env) (ids : List String) : List Project :=
  matchedProjectsFrom env ids ids

/-- Safe-mode expansion writes `depl.aliases = []` on every deployment
fetched from a project (line 180). -/
def withEmptyAliases (d : DeploymentWithAliases) : DeploymentWithAliases :=
  { d with aliases := [] }

/-- Lines 163-191: in safe mode, fetch each matched project's deployments
(page parameter `max: 201`), then push the deployments of the first
`min(projectDeployments.length, 201)` projects — the source's
`to = Math.min(projectDeployments.length, 201)` loop — each with an empty
alias placeholder, and clear the project set.  In non-safe mode, drop
every deployment whose name equals some matched project's name. -/
def resolvedSets (env : Env) (safe : Bool) (ids : List String) :
    List DeploymentWithAliases × List Project :=
  let deployments := matchedDeployments env ids
  let projects := matchedProjects env ids
  if safe then
    let projectDeployments := projects.map fun p => env.deploymentsByProjectId p.id 201
    let toCount := min projectDeployments.length 201
    (deployments ++ ((projectDeployments.take toCount).map fun l => l.map withEmptyAliases).flatten,
     [])
  else
    (deployments.filter fun d => !(projects.any fun p => p.name == d.name), projects)

/-- Lines 203-210: the final filter over the candidate deployments, paired
positionally with their fetched alias lists (`aliases[i]` from the
`Promise.all` at line 193).  In safe mode a candidate with a non-empty
alias list is dropped; every kept candidate gets `match.aliases =
aliases[i]`. -/
def attachAliases (safe : Bool) (deployments : List DeploymentWithAliases)
    (aliasLists : List (List Alias)) : List DeploymentWithAliases :=
  (deployments.zip aliasLists).filterMap fun pr =>
    if safe && pr.2.length > 0 then none else some { pr.1 with aliases := pr.2 }

/-- The final removal sets: resolved sets, then alias fetch
(`getAliases(client, depl.id)` per candidate) and the final filter. -/
def finalSets (env : Env) (safe : Bool) (ids : List String) :
    List DeploymentWithAliases × List Project :=
  let r := resolvedSets env safe ids
  (attachAliases safe r.1 (r.1.map fun d => env.aliasesOf d.id), r.2)

/-- A network call issued through the API client, as recorded in the
run trace. -/
inductive ApiCall where
  | getScope
  | getDeployment (idOrHost : String)
  | getProjectByIdOrName (idOrName : String)
  | getDeploymentsByProjectId (projectId : String) (maxCount : Nat)
  | getAliases (deploymentId : String)
  | removeDeployment (deploymentId : String) (hard : Bool)
  | removeProject (projectId : String)
deriving DecidableEq

/-- User-visible output events of the workflow (messages are abstracted to
their kind; `notFound` records whether safe mode selected the
`'unaliased'` phrasing over `'any'`, line 214). -/
inductive OutputEvent where
  | usageError
  | invalidName (name : String)
  | notFound (safeMode : Bool)
  | foundSummary
  | capWarning
  | canceled
  | success
deriving DecidableEq

/-- How a run of `main` terminates: a returned exit code, or an uncaught
exception propagating out (e.g. the `Context name is not defined` throw at
line 149). -/
inductive RunResult where
  | exit (code : Nat)
  | crash
deriving DecidableEq

/-- The observable outcome of a run: termination, the ordered trace of API
calls issued, and the output events emitted. -/
structure RunOutcome where
  result : RunResult
  calls : List ApiCall
  events : List OutputEvent
deriving DecidableEq

/-- Is this API call a deletion (`now.remove` or `removeProject`)? -/
def isDeleteCall : ApiCall → Bool
  | .removeDeployment _ _ => true
  | .removeProject _ => true
  | _ => false

/-- The deletion calls contained in a trace. -/
def deletionCalls (calls : List ApiCall) : List ApiCall :=
  calls.filter isDeleteCall

/-- JavaScript `String.prototype.toLowerCase`, modelled character-wise
(ASCII-faithful; written over the character list so that it evaluates in
the kernel, unlike `String.toLower`). -/
def toLowerStr (s : String) : String :=
  String.mk (s.data.map Char.toLower)

/-- JavaScript `String.prototype.trim`: strip leading and trailing
whitespace (modelled over the character list for kernel evaluation). -/
def trimStr (s : String) : String :=
  String.mk (((s.data.dropWhile Char.isWhitespace).reverse.dropWhile Char.isWhitespace).reverse)

/-- `readConfirmation` resolves `d.toString().trim()` (line 332): the line
delivered to `main` is the raw stdin data, whitespace-trimmed. -/
def readConfirmationLine (raw : String) : String :=
  trimStr raw

/-- Lines 236-240: `main` lowercases the received line and accepts exactly
the literal tokens `y` and `yes`. -/
def confirmationAccepted (received : String) : Bool :=
  toLowerStr received == "y" || toLowerStr received == "yes"

/-- The delete calls fired by the execute step (lines 252-255): one
`now.remove(depl.id, { hard })` per resolved deployment and one
`removeProject(client, project.id)` per resolved project, uncapped. -/
def executeCalls (hard : Bool) (deployments : List DeploymentWithAliases)
    (projects : List Project) : List ApiCall :=
  deployments.map (fun d => ApiCall.removeDeployment d.id hard)
    ++ projects.map fun p => ApiCall.removeProject p.id

/-- The trace of fetch-phase API calls: scope resolution, one
`getDeployment` and one `getProjectByIdOrName` per identifier, the
safe-mode `getDeploymentsByProjectId` batch (one call per matched project,
page parameter 201), and one `getAliases` per candidate deployment. -/
def fetchCalls (env : Env) (flags : Flags) (ids : List String) : List ApiCall :=
  [ApiCall.getScope] ++ ids.map ApiCall.getDeployment
    ++ ids.map ApiCall.getProjectByIdOrName
    ++ (if flags.safe then
          (matchedProjects env ids).map fun p => ApiCall.getDeploymentsByProjectId p.id 201
        else [])
    ++ (resolvedSets env flags.safe ids).1.map fun d => ApiCall.getAliases d.id

/-- The run from line 123 on, once argument validation has passed and the
scope context is available: resolution, empty-result check, volume-cap
warning, confirmation, and execution (lines 123-270). -/
def runAfterValidation (env : Env) (flags : Flags) (ids : List String)
    (stdinLine : String) : RunOutcome :=
  let final := finalSets env flags.safe ids
  if final.1.length = 0 ∧ final.2.length = 0 then
    { result := .exit 1, calls := fetchCalls env flags ids, events := [.notFound flags.safe] }
  else
    let warnEvents :=
      [OutputEvent.foundSummary]
        ++ if final.1.length > 200 then [OutputEvent.capWarning] else []
    if flags.yes = false ∧ confirmationAccepted (readConfirmationLine stdinLine) = false then
      { result := .exit 1, calls := fetchCalls env flags ids, events := warnEvents ++ [.canceled] }
    else
      { result := .exit 0,
        calls := fetchCalls env flags ids ++ executeCalls flags.hard final.1 final.2,
        events := warnEvents ++ [.success] }

/-- Shallow embedding of `main` (remove.ts lines 75-271), for a run in
which every issued deletion succeeds.  `stdinLine` is the raw stdin data
read by the confirmation prompt (unused when `--yes` skips it).  Argument
parsing itself is elided; the parsed flags and positional identifiers are
the inputs. -/
def mainModel (env : Env) (flags : Flags) (ids : List String) (stdinLine : String) : RunOutcome :=
  if flags.help = true ∨ ids.head? = some "help" then
    { result := .exit 2, calls := [], events := [] }
  else if ids.length < 1 then
    { result := .exit 1, calls := [], events := [.usageError] }
  else
    match ids.find? fun n => !env.isValidName n with
    | some bad => { result := .exit 1, calls := [], events := [.invalidName bad] }
    | none =>
      if env.contextName = "" then
        { result := .crash, calls := [ApiCall.getScope], events := [] }
      else
        runAfterValidation env flags ids stdinLine

/-- Safe-mode expansion as the specification sentence words it, for
refinement comparison with `resolvedSets`: EVERY matched project is
expanded to its fetched deployments (page parameter 201), merged after the
standalone matches with empty alias placeholders.  The source instead
processes only the first 201 matched projects. -/
def specSafeExpandedDeployments (env : Env) (ids : List String) : List DeploymentWithAliases :=
  matchedDeployments env ids
    ++ ((matchedProjects env ids).map fun p =>
         (env.deploymentsByProjectId p.id 201).map withEmptyAliases).flatten

/-- Override a lookup so that it fails, as a captured error value, on one
specific identifier.  Used to state that a failed lookup only removes that
identifier's own contribution from the batch. -/
def failOn (f : String → LookupResult α) (x : String) : String → LookupResult α :=
  fun y => if y = x then .err else f y

/-! ### Helper lemmas -/

theorem filter_map_failOn {α : Type} (f : String → LookupResult α)
    (keep : LookupResult α → Bool) (hkeep : keep .err = false) (x : String)
    (ids : List String) :
    (ids.map (failOn f x)).filter keep
      = ((ids.filter fun y => !(y == x)).map f).filter keep := by
  induction ids with
  | nil => rfl
  | cons y ys ih =>
    by_cases hy : y = x
    · subst hy
      simp [failOn, hkeep, ih]
    · have hb : (y == x) = false := by simp [hy]
      simp [failOn, hy, List.filter_cons, hb, ih]

theorem mem_attachAliases (safe : Bool) (ds : List DeploymentWithAliases)
    (aliasLists : List (List Alias)) (d : DeploymentWithAliases)
    (hd : d ∈ attachAliases safe ds aliasLists) :
    ∃ d0 a0, d0 ∈ ds ∧ d = { d0 with aliases := a0 } := by
  simp only [attachAliases, List.mem_filterMap] at hd
  obtain ⟨pr, hpr, heq⟩ := hd
  by_cases h : (safe && decide (pr.2.length > 0)) = true
  · simp [h] at heq
  · rw [if_neg h] at heq
    exact ⟨pr.1, pr.2, (List.of_mem_zip hpr).1, (Option.some_inj.mp heq).symm⟩

theorem attachAliases_safe_aliases_nil (ds : List DeploymentWithAliases)
    (aliasLists : List (List Alias)) (d : DeploymentWithAliases)
    (hd : d ∈ attachAliases true ds aliasLists) :
    d.aliases = [] := by
  simp only [attachAliases, List.mem_filterMap] at hd
  obtain ⟨pr, hpr, heq⟩ := hd
  by_cases h : pr.2.length > 0
  · simp [h] at heq
  · rw [if_neg (by simpa using h)] at heq
    rw [← Option.some_inj.mp heq]
    simpa using Nat.le_zero.mp (Nat.not_lt.mp h)

/-! ### Claims -/

/-- C4: in safe mode, the project removal set is always empty after
resolution, for every environment and identifier list (line 185 clears it
unconditionally in the safe branch, and the final alias filter only
touches the deployment set). -/
theorem safe_mode_projects_empty (env : Env) (ids : List String) :
    (finalSets env true ids).2 = [] := by
  simp [finalSets, resolvedSets]

/-- C1: in safe mode, every deployment in the final removal set carries an
empty alias list — any candidate whose fetched alias list is non-empty was
dropped by the final filter (lines 203-210), and kept candidates get their
(empty) fetched list attached. -/
theorem safe_mode_final_aliases_empty (env : Env) (ids : List String)
    (d : DeploymentWithAliases) (hd : d ∈ (finalSets env true ids).1) :
    d.aliases = [] := by
  simp only [finalSets] at hd
  exact attachAliases_safe_aliases_nil _ _ _ hd

/-- C5: in non-safe mode, no deployment in the final removal set has the
same name as any project in the final removal set: line 188 removes every
deployment whose name coincides with a matched project's name, and the
alias-attach step preserves names. -/
theorem nonsafe_no_name_overlap (env : Env) (ids : List String)
    (d : DeploymentWithAliases) (p : Project)
    (hd : d ∈ (finalSets env false ids).1) (hp : p ∈ (finalSets env false ids).2) :
    d.name ≠ p.name := by
  simp only [finalSets, resolvedSets, if_neg (by simp : ¬(false = true))] at hd hp
  obtain ⟨d0, a0, hd0, rfl⟩ := mem_attachAliases _ _ _ _ hd
  rw [List.mem_filter] at hd0
  have hnone := hd0.2
  simp only [Bool.not_eq_true', List.any_eq_false, beq_iff_eq] at hnone
  have hname : ({ d0 with aliases := a0 } : DeploymentWithAliases).name = d0.name := rfl
  rw [hname]
  exact fun h => hnone p hp h.symm

/-- C2: a lookup failure for an individual identifier is captured as a
value, never thrown (embedded as the `err` lookup result): failing the
deployment (resp. project) lookup on one identifier removes exactly that
identifier's contribution from the matched-deployment (resp. project) set
— the other identifiers' matches and the other set are untouched, and the
batch still resolves. -/
theorem lookup_failure_captured_as_value (env : Env) (ids : List String) (x : String) :
    matchedDeployments { env with deploymentLookup := failOn env.deploymentLookup x } ids
      = matchedDeploymentsFrom env (ids.filter fun y => !(y == x)) ids
    ∧ matchedProjects { env with deploymentLookup := failOn env.deploymentLookup x } ids
      = matchedProjects env ids
    ∧ matchedProjects { env with projectLookup := failOn env.projectLookup x } ids
      = matchedProjectsFrom env (ids.filter fun y => !(y == x)) ids
    ∧ matchedDeployments { env with projectLookup := failOn env.projectLookup x } ids
      = matchedDeployments env ids := by
  refine ⟨?_, rfl, ?_, rfl⟩
  · exact congrArg (List.filterMap okValue?)
      (filter_map_failOn env.deploymentLookup (keepDeployment env ids) rfl x ids)
  · exact congrArg (List.filterMap okValue?)
      (filter_map_failOn env.projectLookup (keepProject ids) rfl x ids)

/-- C3 (amended): when safe mode is requested AND at most 201 project
entries matched, the code's expansion coincides with the spec's wording —
every matched project is expanded (page parameter 201, hence up to 201 of
its deployments whenever the collaborator respects its page limit), the
fetched deployments are merged with empty alias placeholders, and the
project set is cleared.  Beyond 201 matched entries the source's
`to = Math.min(projectDeployments.length, 201)` loop stops expanding (see
the counterexample). -/
theorem safe_mode_expansion_bounded (env : Env) (ids : List String)
    (h201 : (matchedProjects env ids).length ≤ 201)
    (hwf : ∀ pid n, (env.deploymentsByProjectId pid n).length ≤ n) :
    (resolvedSets env true ids).1 = specSafeExpandedDeployments env ids
    ∧ (resolvedSets env true ids).2 = []
    ∧ ∀ p ∈ matchedProjects env ids,
        (env.deploymentsByProjectId p.id 201).length ≤ 201 := by
  refine ⟨?_, by simp [resolvedSets], fun p _ => hwf p.id 201⟩
  have hpd : ((matchedProjects env ids).map fun p =>
      env.deploymentsByProjectId p.id 201).length ≤ 201 := by
    simpa using h201
  simp only [resolvedSets, specSafeExpandedDeployments, if_true]
  rw [Nat.min_eq_left hpd, List.take_length, List.map_map]
  rfl

/-! ### Concrete fixtures for witnesses and the counterexample -/

/-- A standalone deployment fixture named `app`. -/
def deplApp : DeploymentWithAliases :=
  { id := "dpl_1", name := "app", url := "app.vercel.app", createdAt := 0, aliases := [] }

/-- A project fixture named `webapp`. -/
def projWeb : Project := { id := "prj_1", name := "webapp" }

/-- A deployment fixture belonging to the `webapp` project. -/
def childDepl : DeploymentWithAliases :=
  { id := "dpl_child", name := "webapp", url := "webapp.vercel.app", createdAt := 0, aliases := [] }

/-- An environment where identifier `app` resolves to a deployment,
`webapp` resolves to a project with one deployment, `!!` is
syntactically invalid, and no deployment has aliases. -/
def envMixed : Env :=
  { contextName := "team"
    isValidName := fun s => !(s == "!!")
    normalizeURL := fun s => s
    deploymentLookup := fun s => if s == "app" then .ok deplApp else .err
    projectLookup := fun s => if s == "webapp" then .ok projWeb else .err
    deploymentsByProjectId := fun _ n => List.replicate (min 1 n) childDepl
    aliasesOf := fun _ => [] }

/-- Like `envMixed`, but the `webapp` project has 201 deployments. -/
def env201 : Env :=
  { envMixed with deploymentsByProjectId := fun _ n => List.replicate (min 201 n) childDepl }

/-- Flags of a plain `vercel rm ids...` invocation. -/
def flagsPlain : Flags := { hard := false, yes := false, safe := false, help := false }

/-- Flags of `vercel rm --safe`. -/
def flagsSafe : Flags := { hard := false, yes := false, safe := true, help := false }

/-- Flags of `vercel rm --safe --yes`. -/
def flagsSafeYes : Flags := { hard := false, yes := true, safe := true, help := false }

/-- The 202-fold repeated identifier list used to refute C3 as stated:
duplicates are independently resolved (spec section 4.1), so 202 matched
project entries arise. -/
def cexIds : List String := List.replicate 202 "p"

/-- The project every `p` identifier resolves to in the counterexample. -/
def cexProj : Project := { id := "p", name := "p" }

/-- Counterexample environment: every identifier resolves to the project
`p`, which has exactly one deployment. -/
def cexEnv : Env :=
  { contextName := "team"
    isValidName := fun _ => true
    normalizeURL := fun s => s
    deploymentLookup := fun _ => .err
    projectLookup := fun s => if s == "p" then .ok cexProj else .err
    deploymentsByProjectId := fun _ _ => [childDepl]
    aliasesOf := fun _ => [] }

set_option maxRecDepth 8192 in
/-- C3 counterexample: with 202 matched project entries of one deployment
each (and no standalone matches), the spec's wording predicts 202 merged
deployments, but the source expands only the first 201 project entries. -/
theorem safe_mode_expansion_counterexample :
    (matchedProjects cexEnv cexIds).length = 202
    ∧ (specSafeExpandedDeployments cexEnv cexIds).length = 202
    ∧ (resolvedSets cexEnv true cexIds).1.length = 201 :=
  ⟨by decide, by decide, by decide⟩

/-- Witness for C3 (amended) at `envMixed` with one matched project. -/
theorem safe_mode_expansion_bounded_witness :
    (matchedProjects envMixed ["webapp"]).length ≤ 201
    ∧ (resolvedSets envMixed true ["webapp"]).1 = specSafeExpandedDeployments envMixed ["webapp"] :=
  ⟨by decide,
   (safe_mode_expansion_bounded envMixed ["webapp"] (by decide)
      (fun _ n => by simp [envMixed])).1⟩

/-- Witness for C1 at `envMixed`: the safe-mode final set contains
`deplApp`, whose alias list is empty. -/
theorem safe_mode_final_aliases_empty_witness :
    deplApp ∈ (finalSets envMixed true ["app"]).1 ∧ deplApp.aliases = [] :=
  ⟨by decide, safe_mode_final_aliases_empty envMixed ["app"] deplApp (by decide)⟩

/-- Witness for C5 at `envMixed`: the non-safe final sets contain
`deplApp` and `projWeb`, whose names differ. -/
theorem nonsafe_no_name_overlap_witness :
    deplApp ∈ (finalSets envMixed false ["app", "webapp"]).1
    ∧ projWeb ∈ (finalSets envMixed false ["app", "webapp"]).2
    ∧ deplApp.name ≠ projWeb.name :=
  ⟨by decide, by decide,
   nonsafe_no_name_overlap envMixed ["app", "webapp"] deplApp projWeb (by decide) (by decide)⟩

/-! ### Run-level helper lemmas -/

theorem filter_isDeleteCall_map {α : Type} (f : α → ApiCall)
    (hf : ∀ a, isDeleteCall (f a) = false) (l : List α) :
    (l.map f).filter isDeleteCall = [] := by
  induction l with
  | nil => rfl
  | cons a l ih => simp [List.filter_cons, hf, ih]

theorem deletionCalls_append (a b : List ApiCall) :
    deletionCalls (a ++ b) = deletionCalls a ++ deletionCalls b :=
  List.filter_append a b

theorem deletionCalls_fetchCalls (env : Env) (flags : Flags) (ids : List String) :
    deletionCalls (fetchCalls env flags ids) = [] := by
  rw [deletionCalls, List.filter_eq_nil_iff]
  intro c hc
  simp only [fetchCalls, List.append_assoc, List.mem_append, List.mem_singleton,
    List.mem_map] at hc
  rcases hc with rfl | ⟨a, _, rfl⟩ | ⟨a, _, rfl⟩ | hc | ⟨d, _, rfl⟩
  · simp [isDeleteCall]
  · simp [isDeleteCall]
  · simp [isDeleteCall]
  · by_cases hs : flags.safe = true
    · rw [if_pos hs] at hc
      obtain ⟨p, _, rfl⟩ := List.mem_map.mp hc
      simp [isDeleteCall]
    · rw [if_neg hs] at hc
      cases hc
  · simp [isDeleteCall]

theorem deletionCalls_executeCalls (hard : Bool) (ds : List DeploymentWithAliases)
    (ps : List Project) :
    deletionCalls (executeCalls hard ds ps) = executeCalls hard ds ps := by
  rw [deletionCalls, List.filter_eq_self]
  intro c hc
  simp only [executeCalls, List.mem_append, List.mem_map] at hc
  rcases hc with ⟨d, _, rfl⟩ | ⟨p, _, rfl⟩ <;> rfl

theorem deletionCalls_run (env : Env) (flags : Flags) (ids : List String)
    (hard : Bool) (ds : List DeploymentWithAliases) (ps : List Project) :
    deletionCalls (fetchCalls env flags ids ++ executeCalls hard ds ps)
      = executeCalls hard ds ps := by
  rw [deletionCalls_append, deletionCalls_fetchCalls, deletionCalls_executeCalls,
    List.nil_append]

theorem mainModel_validated (env : Env) (flags : Flags) (ids : List String) (stdinLine : String)
    (hHelp : flags.help = false) (hFirst : ids.head? ≠ some "help") (hNe : ids ≠ [])
    (hValid : ∀ i ∈ ids, env.isValidName i = true) (hCtx : env.contextName ≠ "") :
    mainModel env flags ids stdinLine = runAfterValidation env flags ids stdinLine := by
  have h1 : ¬(flags.help = true ∨ ids.head? = some "help") := by
    simp [hHelp, hFirst]
  have h2 : ¬(ids.length < 1) := by
    simp [Nat.lt_one_iff, List.length_eq_zero, hNe]
  have h3 : ids.find? (fun n => !env.isValidName n) = none := by
    rw [List.find?_eq_none]
    intro x hx
    simp [hValid x hx]
  unfold mainModel
  rw [if_neg h1, if_neg h2, h3, if_neg hCtx]

/-- C6: when the confirmation prompt is not skipped, the received line is
case-normalized and compared against the literal tokens `y` and `yes`:
the inputs `y`, `Y`, `yes`, `YES` are accepted, while any other received
line (including the empty one) cancels the run with exit code 1 and no
deletion call issued. -/
theorem confirmation_gate (env : Env) (flags : Flags) (ids : List String) (stdinLine : String)
    (hHelp : flags.help = false) (hFirst : ids.head? ≠ some "help") (hNe : ids ≠ [])
    (hValid : ∀ i ∈ ids, env.isValidName i = true) (hCtx : env.contextName ≠ "")
    (hYes : flags.yes = false)
    (hFound : ¬((finalSets env flags.safe ids).1.length = 0
                ∧ (finalSets env flags.safe ids).2.length = 0)) :
    (confirmationAccepted "y" = true ∧ confirmationAccepted "Y" = true
      ∧ confirmationAccepted "yes" = true ∧ confirmationAccepted "YES" = true
      ∧ confirmationAccepted "" = false ∧ confirmationAccepted "n" = false
      ∧ confirmationAccepted "maybe" = false)
    ∧ (confirmationAccepted (readConfirmationLine stdinLine) = true →
        (mainModel env flags ids stdinLine).result = .exit 0
        ∧ deletionCalls (mainModel env flags ids stdinLine).calls
            = executeCalls flags.hard (finalSets env flags.safe ids).1
                (finalSets env flags.safe ids).2)
    ∧ (confirmationAccepted (readConfirmationLine stdinLine) = false →
        (mainModel env flags ids stdinLine).result = .exit 1
        ∧ deletionCalls (mainModel env flags ids stdinLine).calls = []
        ∧ OutputEvent.canceled ∈ (mainModel env flags ids stdinLine).events) := by
  rw [mainModel_validated env flags ids stdinLine hHelp hFirst hNe hValid hCtx]
  refine ⟨⟨by decide, by decide, by decide, by decide, by decide, by decide, by decide⟩, ?_, ?_⟩
  · intro hacc
    simp only [runAfterValidation]
    rw [if_neg hFound]
    rw [if_neg (by simp [hacc])]
    exact ⟨rfl, deletionCalls_run env flags ids flags.hard _ _⟩
  · intro hacc
    simp only [runAfterValidation]
    rw [if_neg hFound]
    rw [if_pos ⟨hYes, hacc⟩]
    exact ⟨rfl, deletionCalls_fetchCalls env flags ids, by simp⟩

/-- C7: if after all filtering both final sets are empty, the run reports
the not-found message (whose phrasing records whether safe mode was
active), exits with code 1, and issues no deletion call. -/
theorem empty_result_exit (env : Env) (flags : Flags) (ids : List String) (stdinLine : String)
    (hHelp : flags.help = false) (hFirst : ids.head? ≠ some "help") (hNe : ids ≠ [])
    (hValid : ∀ i ∈ ids, env.isValidName i = true) (hCtx : env.contextName ≠ "")
    (hEmpty1 : (finalSets env flags.safe ids).1 = [])
    (hEmpty2 : (finalSets env flags.safe ids).2 = []) :
    (mainModel env flags ids stdinLine).result = .exit 1
    ∧ (mainModel env flags ids stdinLine).events = [.notFound flags.safe]
    ∧ deletionCalls (mainModel env flags ids stdinLine).calls = [] := by
  rw [mainModel_validated env flags ids stdinLine hHelp hFirst hNe hValid hCtx]
  simp only [runAfterValidation]
  rw [if_pos (by simp [hEmpty1, hEmpty2])]
  exact ⟨rfl, rfl, deletionCalls_fetchCalls env flags ids⟩

/-- C8: if some identifier fails the name-syntax validator, the command
rejects with exit code 1 before issuing any network call: the trace is
empty (no scope resolution, no lookup, no deletion). -/
theorem invalid_identifier_rejected (env : Env) (flags : Flags) (ids : List String)
    (stdinLine : String)
    (hHelp : flags.help = false) (hFirst : ids.head? ≠ some "help")
    (hBad : ∃ i ∈ ids, env.isValidName i = false) :
    (mainModel env flags ids stdinLine).result = .exit 1
    ∧ (mainModel env flags ids stdinLine).calls = [] := by
  have hNe : ids ≠ [] := by
    rintro rfl
    simp at hBad
  have h1 : ¬(flags.help = true ∨ ids.head? = some "help") := by
    simp [hHelp, hFirst]
  have h2 : ¬(ids.length < 1) := by
    simp [Nat.lt_one_iff, List.length_eq_zero, hNe]
  have h3 : (ids.find? fun n => !env.isValidName n).isSome = true := by
    rw [List.find?_isSome]
    obtain ⟨i, hi, hv⟩ := hBad
    exact ⟨i, hi, by simp [hv]⟩
  obtain ⟨bad, hbad⟩ := Option.isSome_iff_exists.mp h3
  unfold mainModel
  rw [if_neg h1, if_neg h2, hbad]
  exact ⟨rfl, rfl⟩

/-- C9: when the final deployment count exceeds 200, the volume-cap
warning is emitted, and it does not alter the execute step's input — the
run still issues one delete call per final deployment and per final
project, uncapped by this component. -/
theorem cap_warning_uncapped_execute (env : Env) (flags : Flags) (ids : List String)
    (stdinLine : String)
    (hHelp : flags.help = false) (hFirst : ids.head? ≠ some "help") (hNe : ids ≠ [])
    (hValid : ∀ i ∈ ids, env.isValidName i = true) (hCtx : env.contextName ≠ "")
    (hConfirm : flags.yes = true ∨ confirmationAccepted (readConfirmationLine stdinLine) = true)
    (hBig : 200 < (finalSets env flags.safe ids).1.length) :
    OutputEvent.capWarning ∈ (mainModel env flags ids stdinLine).events
    ∧ deletionCalls (mainModel env flags ids stdinLine).calls
        = executeCalls flags.hard (finalSets env flags.safe ids).1
            (finalSets env flags.safe ids).2 := by
  rw [mainModel_validated env flags ids stdinLine hHelp hFirst hNe hValid hCtx]
  simp only [runAfterValidation]
  rw [if_neg (by omega)]
  have hcond : ¬(flags.yes = false
      ∧ confirmationAccepted (readConfirmationLine stdinLine) = false) := by
    rcases hConfirm with h | h <;> simp [h]
  rw [if_neg hcond, if_pos hBig]
  exact ⟨by simp, deletionCalls_run env flags ids flags.hard _ _⟩

/-- C10: the confirmation input is whitespace-trimmed before the
case-normalized comparison, so any raw stdin line equal to `y` or `yes`
up to case and surrounding whitespace leads to execution. -/
theorem trimmed_input_accepted (env : Env) (flags : Flags) (ids : List String)
    (stdinLine : String)
    (hHelp : flags.help = false) (hFirst : ids.head? ≠ some "help") (hNe : ids ≠ [])
    (hValid : ∀ i ∈ ids, env.isValidName i = true) (hCtx : env.contextName ≠ "")
    (_hYes : flags.yes = false)
    (hFound : ¬((finalSets env flags.safe ids).1.length = 0
                ∧ (finalSets env flags.safe ids).2.length = 0))
    (hTrim : toLowerStr (trimStr stdinLine) = "y" ∨ toLowerStr (trimStr stdinLine) = "yes") :
    (mainModel env flags ids stdinLine).result = .exit 0
    ∧ deletionCalls (mainModel env flags ids stdinLine).calls
        = executeCalls flags.hard (finalSets env flags.safe ids).1
            (finalSets env flags.safe ids).2 := by
  have hacc : confirmationAccepted (readConfirmationLine stdinLine) = true := by
    rcases hTrim with h | h <;> simp [confirmationAccepted, readConfirmationLine, h]
  rw [mainModel_validated env flags ids stdinLine hHelp hFirst hNe hValid hCtx]
  simp only [runAfterValidation]
  rw [if_neg hFound]
  rw [if_neg (by simp [hacc])]
  exact ⟨rfl, deletionCalls_run env flags ids flags.hard _ _⟩

/-- Witness for C6 at `envMixed`: the raw line `YES` leads to execution,
the raw line `nah` cancels with exit 1 and no deletion call. -/
theorem confirmation_gate_witness :
    (mainModel envMixed flagsPlain ["app"] "YES").result = .exit 0
    ∧ ((mainModel envMixed flagsPlain ["app"] "nah").result = .exit 1
       ∧ deletionCalls (mainModel envMixed flagsPlain ["app"] "nah").calls = []
       ∧ OutputEvent.canceled ∈ (mainModel envMixed flagsPlain ["app"] "nah").events) :=
  ⟨((confirmation_gate envMixed flagsPlain ["app"] "YES" rfl (by decide) (by decide)
      (by decide) (by decide) rfl (by decide)).2.1 (by decide)).1,
   (confirmation_gate envMixed flagsPlain ["app"] "nah" rfl (by decide) (by decide)
      (by decide) (by decide) rfl (by decide)).2.2 (by decide)⟩

/-- Witness for C7 at `envMixed`: the identifier `ghost` matches nothing,
so the run exits 1 with the not-found report and no deletion call. -/
theorem empty_result_exit_witness :
    (mainModel envMixed flagsPlain ["ghost"] "y").result = .exit 1
    ∧ (mainModel envMixed flagsPlain ["ghost"] "y").events = [.notFound false]
    ∧ deletionCalls (mainModel envMixed flagsPlain ["ghost"] "y").calls = [] :=
  empty_result_exit envMixed flagsPlain ["ghost"] "y" rfl (by decide) (by decide)
    (by decide) (by decide) (by decide) (by decide)

/-- Witness for C8 at `envMixed`: the syntactically invalid identifier
`!!` aborts with exit 1 and an empty call trace. -/
theorem invalid_identifier_rejected_witness :
    (mainModel envMixed flagsPlain ["!!"] "y").result = .exit 1
    ∧ (mainModel envMixed flagsPlain ["!!"] "y").calls = [] :=
  invalid_identifier_rejected envMixed flagsPlain ["!!"] "y" rfl (by decide)
    ⟨"!!", by decide, by decide⟩

set_option maxRecDepth 8192 in
/-- Witness for C9 at `env201`: safe mode expands `webapp` to 201
deployments, the cap warning fires, and all 201 deletes are issued. -/
theorem cap_warning_uncapped_execute_witness :
    200 < (finalSets env201 flagsSafeYes.safe ["webapp"]).1.length
    ∧ (OutputEvent.capWarning ∈ (mainModel env201 flagsSafeYes ["webapp"] "").events
       ∧ deletionCalls (mainModel env201 flagsSafeYes ["webapp"] "").calls
           = executeCalls flagsSafeYes.hard (finalSets env201 flagsSafeYes.safe ["webapp"]).1
               (finalSets env201 flagsSafeYes.safe ["webapp"]).2) :=
  ⟨by decide,
   cap_warning_uncapped_execute env201 flagsSafeYes ["webapp"] "" rfl (by decide) (by decide)
     (by decide) (by decide) (Or.inl rfl) (by decide)⟩

/-- Witness for C10 at `envMixed`: the raw line with surrounding blanks
around `Y` is accepted and the delete call is issued. -/
theorem trimmed_input_accepted_witness :
    (toLowerStr (trimStr "  Y  ") = "y" ∨ toLowerStr (trimStr "  Y  ") = "yes")
    ∧ ((mainModel envMixed flagsPlain ["app"] "  Y  ").result = .exit 0
       ∧ deletionCalls (mainModel envMixed flagsPlain ["app"] "  Y  ").calls
           = executeCalls flagsPlain.hard (finalSets envMixed flagsPlain.safe ["app"]).1
               (finalSets envMixed flagsPlain.safe ["app"]).2) :=
  ⟨Or.inl (by decide),
   trimmed_input_accepted envMixed flagsPlain ["app"] "  Y  " rfl (by decide) (by decide)
     (by decide) (by decide) rfl (by decide) (Or.inl (by decide))⟩

end Remove
